import Mathlib

/-!
Verification of the thermal-field sampling/normalization pipeline of the
`threejsHeatmap` repository (`src/src/App.tsx`).  The React/Three.js code is
shallowly embedded: JavaScript numbers become real numbers, arrays become
lists, and the pipeline's `useMemo` bodies become pure functions of their
inputs (which they already are in the source).
-/

/-- A 3D point, the `[number, number, number]` tuples of the source. -/
structure Point3 where
  x : ℝ
  y : ℝ
  z : ℝ

/-- Interface `HeatSource` of `App.tsx`: `{ pos, intensity }`. -/
structure HeatSource where
  pos : Point3
  intensity : ℝ

/-- Interface `RackData` of `App.tsx`: `{ pos, size }`. -/
structure RackData where
  pos : Point3
  size : Point3

/-- Interface `RackWithHeat` of `App.tsx`: a rack plus its raw `heat` and
`normalizedHeat` values. -/
structure RackWithHeat where
  pos : Point3
  size : Point3
  heat : ℝ
  normalizedHeat : ℝ

instance : Inhabited Point3 := ⟨⟨0, 0, 0⟩⟩

instance : Inhabited RackWithHeat := ⟨⟨default, default, 0, 0⟩⟩

/-- The helper `distance` of `App.tsx` (lines 266-271): Euclidean distance of
two 3D points, computed as `sqrt (dx*dx + dy*dy + dz*dz)`. -/
noncomputable def distance (a b : Point3) : ℝ :=
  Real.sqrt ((a.x - b.x) * (a.x - b.x) + (a.y - b.y) * (a.y - b.y) +
    (a.z - b.z) * (a.z - b.z))

/-- The body of the per-emitter contribution at lines 59-61 of `App.tsx`, as a
function of the emitter intensity and the already-computed distance `d`:
`radius = max(1, sqrt(intensity))` and
`intensity * exp(-(d*d) / (2 * radius * radius * 2))`. -/
noncomputable def influence (intensity d : ℝ) : ℝ :=
  let radius := max 1 (Real.sqrt intensity)
  intensity * Real.exp (-(d * d) / (2 * radius * radius * 2))

/-- One emitter's contribution at a query point (lines 58-61 of `App.tsx`):
`influence` applied to the emitter's intensity and the distance from the query
point to the emitter's position. -/
noncomputable def falloff (src : HeatSource) (p : Point3) : ℝ :=
  influence src.intensity (distance p src.pos)

/-- The aggregated raw heat at a query point: the `heatSources.reduce` of
lines 56-63 of `App.tsx` (fold of `acc + falloff`, seed 0) multiplied by the
`* 3` visualization amplification of line 63. -/
noncomputable def totalHeat (heatSources : List HeatSource) (p : Point3) : ℝ :=
  (heatSources.foldl (fun acc src => acc + falloff src p) 0) * 3

/-- JavaScript `x || d` for numbers as used at line 67 of `App.tsx`
(`Math.max(...) || 1`): the right operand is substituted exactly when the left
one is falsy, i.e. equal to 0 (the NaN case does not arise over ℝ). -/
noncomputable def jsOr (x d : ℝ) : ℝ :=
  if x = 0 then d else x

/-- JavaScript `Math.max(...xs)` for a list of numbers.  The empty case (which
would give `-Infinity` in JavaScript) is unreachable in the embedded pipeline:
`racksWithHeat` only takes the maximum behind its non-emptiness guard. -/
noncomputable def maxOfList : List ℝ → ℝ
  | [] => 0
  | x :: xs => xs.foldl max x

/-- The intermediate `withHeat` array of lines 55-65 of `App.tsx`: each rack
paired with its raw aggregated heat. -/
noncomputable def withHeatOf (racks : List RackData) (heatSources : List HeatSource) :
    List (RackData × ℝ) :=
  racks.map (fun rack => (rack, totalHeat heatSources rack.pos))

/-- The divisor `maxHeat` of line 67 of `App.tsx`:
`Math.max(...withHeat.map((r) => r.heat)) || 1`. -/
noncomputable def maxHeatOf (racks : List RackData) (heatSources : List HeatSource) : ℝ :=
  jsOr (maxOfList ((withHeatOf racks heatSources).map Prod.snd)) 1

/-- The `useMemo` body of lines 52-73 of `App.tsx`, as a pure function of its
dependencies `racks` and `heatSources`.  Returns the pair
`(racksWithHeat, maxHeat)`: the guard of lines 53-54 yields `([], 1)` when
either input is empty; otherwise each rack gets its raw heat and its
`normalizedHeat = heat / maxHeat` (lines 68-71). -/
noncomputable def racksWithHeat (racks : List RackData) (heatSources : List HeatSource) :
    List RackWithHeat × ℝ :=
  if racks.length = 0 ∨ heatSources.length = 0 then ([], 1)
  else
    ((withHeatOf racks heatSources).map (fun rh =>
      ⟨rh.1.pos, rh.1.size, rh.2, rh.2 / maxHeatOf racks heatSources⟩),
     maxHeatOf racks heatSources)

/-- The max-divide normalizer of lines 67-71 of `App.tsx`, abstracted over the
raw-value list it is applied to: divisor `Math.max(...raws) || 1`, each output
the raw value divided by that divisor.  Returns `(outputs, divisor)`. -/
noncomputable def maxDivide (raws : List ℝ) : List ℝ × ℝ :=
  (raws.map (fun x => x / jsOr (maxOfList raws) 1), jsOr (maxOfList raws) 1)

/-- World position of floor-grid vertex `(i, j)` sampled at lines 81-86 of
`App.tsx`.  The geometry is `THREE.PlaneGeometry(50, 50, 50, 50)` (line 77),
whose vertex with index `idx = i * 51 + j` has local position
`(j * 1 - 25, 25 - i * 1, 0)`; the sampler reads `x = positions[idx*3]` and
world `z = -positions[idx*3+1]`, i.e. `(j - 25, 0, i - 25)`. -/
noncomputable def gridPos (i j : ℕ) : Point3 :=
  ⟨(j : ℝ) - 25, 0, (i : ℝ) - 25⟩

/-- The floor heat value stored for grid vertex `(i, j)` at lines 88-97 of
`App.tsx`: the same aggregated raw heat (`reduce` then `* 3`) divided by the
`maxHeat` taken from the rack pipeline. -/
noncomputable def floorHeatValue (heatSources : List HeatSource) (maxHeat : ℝ)
    (i j : ℕ) : ℝ :=
  totalHeat heatSources (gridPos i j) / maxHeat

/-- An RGB color with real components in the unit interval, the embedding of
`THREE.Color`.  A hex color `0xRRGGBB` has components `RR/255`, `GG/255`,
`BB/255`. -/
structure Color where
  r : ℝ
  g : ℝ
  b : ℝ

/-- `THREE.Color.lerpColors(c1, c2, t)`: componentwise linear interpolation
`c1 + (c2 - c1) * t`. -/
noncomputable def lerpColors (c1 c2 : Color) (t : ℝ) : Color :=
  ⟨c1.r + (c2.r - c1.r) * t, c1.g + (c2.g - c1.g) * t, c1.b + (c2.b - c1.b) * t⟩

/-- Hex color `0x00B050`, the cold (green) endpoint of the gradient. -/
noncomputable def colorGreen : Color := ⟨0, 176 / 255, 80 / 255⟩

/-- Hex color `0x6BFA38`, the 25% stop of the gradient. -/
noncomputable def colorYellowGreen : Color := ⟨107 / 255, 250 / 255, 56 / 255⟩

/-- Hex color `0xFFFF00`, the 50% stop of the gradient. -/
noncomputable def colorYellow : Color := ⟨1, 1, 0⟩

/-- Hex color `0xF98607`, the 75% stop of the gradient. -/
noncomputable def colorOrange : Color := ⟨249 / 255, 134 / 255, 7 / 255⟩

/-- Hex color `0xFF0000`, the hot (red) endpoint of the gradient. -/
noncomputable def colorRed : Color := ⟨1, 0, 0⟩

/-- The helper `getHeatColor` of `App.tsx` (lines 274-297): clamp the input to
`[0, 1]`, then linearly interpolate inside one of the four gradient segments
green → yellow-green → yellow → orange → red with stops at 0.25, 0.5, 0.75. -/
noncomputable def getHeatColor (value : ℝ) : Color :=
  let normalizedValue := max 0 (min 1 value)
  if normalizedValue ≤ 0.25 then
    lerpColors colorGreen colorYellowGreen (normalizedValue / 0.25)
  else if normalizedValue ≤ 0.5 then
    lerpColors colorYellowGreen colorYellow ((normalizedValue - 0.25) / 0.25)
  else if normalizedValue ≤ 0.75 then
    lerpColors colorYellow colorOrange ((normalizedValue - 0.5) / 0.25)
  else
    lerpColors colorOrange colorRed ((normalizedValue - 0.75) / 0.25)

/-! ### Helper lemmas about the embedded list maximum -/

lemma le_foldl_max (a : ℝ) (xs : List ℝ) : a ≤ xs.foldl max a := by
  induction xs generalizing a with
  | nil => exact le_rfl
  | cons x xs ih => exact le_trans (le_max_left a x) (ih (max a x))

lemma mem_le_foldl_max {x : ℝ} {xs : List ℝ} (a : ℝ) (h : x ∈ xs) :
    x ≤ xs.foldl max a := by
  induction xs generalizing a with
  | nil => cases h
  | cons y ys ih =>
    rcases List.mem_cons.mp h with rfl | hmem
    · exact le_trans (le_max_right a x) (le_foldl_max _ _)
    · exact ih _ hmem

lemma foldl_max_choice (a : ℝ) (xs : List ℝ) :
    xs.foldl max a = a ∨ xs.foldl max a ∈ xs := by
  induction xs generalizing a with
  | nil => exact Or.inl rfl
  | cons x xs ih =>
    rcases ih (max a x) with h | h
    · rcases max_cases a x with ⟨h2, _⟩ | ⟨h2, _⟩
      · exact Or.inl (by rw [List.foldl_cons, h, h2])
      · exact Or.inr (by rw [List.foldl_cons, h, h2]; exact List.mem_cons_self x xs)
    · exact Or.inr (List.mem_cons_of_mem x h)

lemma foldl_max_le {b : ℝ} (a : ℝ) (xs : List ℝ) (ha : a ≤ b)
    (h : ∀ x ∈ xs, x ≤ b) : xs.foldl max a ≤ b := by
  induction xs generalizing a with
  | nil => exact ha
  | cons x xs ih =>
    exact ih (max a x) (max_le ha (h x (List.mem_cons_self x xs)))
      (fun y hy => h y (List.mem_cons_of_mem x hy))

lemma le_maxOfList {x : ℝ} {xs : List ℝ} (h : x ∈ xs) : x ≤ maxOfList xs := by
  cases xs with
  | nil => cases h
  | cons y ys =>
    rcases List.mem_cons.mp h with rfl | hmem
    · exact le_foldl_max _ _
    · exact mem_le_foldl_max _ hmem

lemma maxOfList_mem {xs : List ℝ} (h : xs ≠ []) : maxOfList xs ∈ xs := by
  cases xs with
  | nil => exact absurd rfl h
  | cons y ys =>
    rcases foldl_max_choice y ys with h2 | h2
    · rw [maxOfList, h2]; exact List.mem_cons_self y ys
    · exact List.mem_cons_of_mem y h2

lemma maxOfList_le {xs : List ℝ} {b : ℝ} (h : xs ≠ []) (hall : ∀ x ∈ xs, x ≤ b) :
    maxOfList xs ≤ b := by
  cases xs with
  | nil => exact absurd rfl h
  | cons y ys =>
    exact foldl_max_le y ys (hall y (List.mem_cons_self y ys))
      (fun x hx => hall x (List.mem_cons_of_mem y hx))

lemma maxOfList_singleton (x : ℝ) : maxOfList [x] = x := rfl

/-! ### Helper lemmas about distance, influence and aggregation -/

lemma distance_self (a : Point3) : distance a a = 0 := by
  simp [distance]

lemma distance_comm (a b : Point3) : distance a b = distance b a := by
  rw [distance, distance]
  ring_nf

lemma distance_nonneg (a b : Point3) : 0 ≤ distance a b :=
  Real.sqrt_nonneg _

lemma radius_pos (intensity : ℝ) : 0 < max 1 (Real.sqrt intensity) :=
  lt_of_lt_of_le one_pos (le_max_left _ _)

lemma influence_zero (intensity : ℝ) : influence intensity 0 = intensity := by
  simp [influence]

lemma influence_pos {intensity : ℝ} (h : 0 < intensity) (d : ℝ) :
    0 < influence intensity d :=
  mul_pos h (Real.exp_pos _)

lemma influence_nonneg {intensity : ℝ} (h : 0 ≤ intensity) (d : ℝ) :
    0 ≤ influence intensity d :=
  mul_nonneg h (Real.exp_pos _).le

lemma influence_le {intensity : ℝ} (h : 0 ≤ intensity) (d : ℝ) :
    influence intensity d ≤ intensity := by
  rw [influence]
  have hc : 0 < 2 * max 1 (Real.sqrt intensity) * max 1 (Real.sqrt intensity) * 2 := by
    have := radius_pos intensity
    positivity
  have hexp : Real.exp (-(d * d) / (2 * max 1 (Real.sqrt intensity) *
      max 1 (Real.sqrt intensity) * 2)) ≤ 1 := by
    rw [Real.exp_le_one_iff]
    apply div_nonpos_of_nonpos_of_nonneg
    · simpa using mul_self_nonneg d
    · exact hc.le
  calc intensity * Real.exp _ ≤ intensity * 1 := by
        exact mul_le_mul_of_nonneg_left hexp h
    _ = intensity := mul_one intensity

lemma influence_strictAnti {intensity : ℝ} (h : 0 < intensity) {d1 d2 : ℝ}
    (hd1 : 0 ≤ d1) (hlt : d1 < d2) :
    influence intensity d2 < influence intensity d1 := by
  rw [influence, influence]
  have hc : 0 < 2 * max 1 (Real.sqrt intensity) * max 1 (Real.sqrt intensity) * 2 := by
    have := radius_pos intensity
    positivity
  apply mul_lt_mul_of_pos_left _ h
  rw [Real.exp_lt_exp]
  rw [div_lt_div_iff_of_pos_right hc]
  have : d1 * d1 < d2 * d2 := mul_self_lt_mul_self hd1 hlt
  linarith

lemma foldl_add_falloff (srcs : List HeatSource) (p : Point3) (a : ℝ) :
    srcs.foldl (fun acc src => acc + falloff src p) a =
      a + (srcs.map (fun s => falloff s p)).sum := by
  induction srcs generalizing a with
  | nil => simp
  | cons s ss ih => rw [List.foldl_cons, ih, List.map_cons, List.sum_cons]; ring

lemma totalHeat_eq_sum (srcs : List HeatSource) (p : Point3) :
    totalHeat srcs p = (srcs.map (fun s => falloff s p)).sum * 3 := by
  rw [totalHeat, foldl_add_falloff, zero_add]

lemma totalHeat_nonneg {srcs : List HeatSource}
    (h : ∀ s ∈ srcs, 0 ≤ s.intensity) (p : Point3) : 0 ≤ totalHeat srcs p := by
  rw [totalHeat_eq_sum]
  have : 0 ≤ (srcs.map (fun s => falloff s p)).sum := by
    apply List.sum_nonneg
    intro x hx
    rcases List.mem_map.mp hx with ⟨s, hs, rfl⟩
    exact influence_nonneg (h s hs) _
  linarith

lemma totalHeat_pos {srcs : List HeatSource} (hne : srcs ≠ [])
    (h : ∀ s ∈ srcs, 0 < s.intensity) (p : Point3) : 0 < totalHeat srcs p := by
  rw [totalHeat_eq_sum]
  have : 0 < (srcs.map (fun s => falloff s p)).sum := by
    apply List.sum_pos
    · intro x hx
      rcases List.mem_map.mp hx with ⟨s, hs, rfl⟩
      exact influence_pos (h s hs) _
    · simpa using hne
  linarith

lemma totalHeat_single (e : HeatSource) (p : Point3) :
    totalHeat [e] p = 3 * falloff e p := by
  rw [totalHeat]; simp [List.foldl]; ring

/-! ### Claim theorems -/

/-- Claim C8: for all 3D points `a` and `b`, `distance a a = 0`,
`distance a b = distance b a`, and `distance` always returns a non-negative
real. -/
theorem claim_c8_distance_props (a b : Point3) :
    distance a a = 0 ∧ distance a b = distance b a ∧ 0 ≤ distance a b :=
  ⟨distance_self a, distance_comm a b, distance_nonneg a b⟩

/-- Claim C5: for every fixed positive intensity, the influence function
`intensity * exp(-(d*d) / (2 * radius * radius * 2))` with
`radius = max 1 (sqrt intensity)` is maximal and equal to the intensity at
distance 0, strictly decreasing in the distance on the non-negative reals,
and strictly positive (in particular non-negative and finite) everywhere. -/
theorem claim_c5_influence_props (intensity : ℝ) (hpos : 0 < intensity) :
    influence intensity 0 = intensity
    ∧ (∀ d1 d2 : ℝ, 0 ≤ d1 → d1 < d2 →
        influence intensity d2 < influence intensity d1)
    ∧ (∀ d : ℝ, 0 < influence intensity d)
    ∧ (∀ d : ℝ, influence intensity d ≤ intensity) :=
  ⟨influence_zero intensity,
   fun _ _ hd1 hlt => influence_strictAnti hpos hd1 hlt,
   fun d => influence_pos hpos d,
   fun d => influence_le hpos.le d⟩

/-- Witness for claim C5 at intensity 2 and distances 0 and 1. -/
theorem claim_c5_witness :
    influence 2 0 = 2 ∧ influence 2 1 < influence 2 0
    ∧ 0 < influence 2 1 ∧ influence 2 1 ≤ 2 := by
  have h := claim_c5_influence_props 2 (by norm_num)
  exact ⟨h.1, h.2.1 0 1 le_rfl one_pos, h.2.2.1 1, h.2.2.2 1⟩

/-- Claim C7: for every query point and every pair of emitters of equal
intensity at equal distance from that point, the aggregated raw value equals
exactly twice the raw value the aggregator produces for a single one of those
emitters. -/
theorem claim_c7_superposition (e1 e2 : HeatSource) (p : Point3)
    (hd : distance p e1.pos = distance p e2.pos)
    (hi : e1.intensity = e2.intensity) :
    totalHeat [e1, e2] p = 2 * totalHeat [e1] p := by
  have hf : falloff e2 p = falloff e1 p := by
    rw [falloff, falloff, hi, hd]
  rw [totalHeat, totalHeat]
  simp only [List.foldl_cons, List.foldl_nil, hf]
  ring

/-- Witness for claim C7: two emitters of intensity 10 at distance 1 on either
side of the origin. -/
theorem claim_c7_witness :
    totalHeat [⟨⟨1, 0, 0⟩, 10⟩, ⟨⟨-1, 0, 0⟩, 10⟩] ⟨0, 0, 0⟩ =
      2 * totalHeat [⟨⟨1, 0, 0⟩, 10⟩] ⟨0, 0, 0⟩ := by
  apply claim_c7_superposition
  · show distance ⟨0, 0, 0⟩ ⟨1, 0, 0⟩ = distance ⟨0, 0, 0⟩ ⟨-1, 0, 0⟩
    rw [distance, distance]
    norm_num
  · rfl

lemma clamp_idem (v : ℝ) :
    max 0 (min 1 (max 0 (min 1 v))) = max 0 (min 1 v) := by
  have h0 : (0 : ℝ) ≤ max 0 (min 1 v) := le_max_left _ _
  have h1 : max 0 (min 1 v) ≤ 1 := max_le one_pos.le (min_le_left _ _)
  rw [min_eq_right h1, max_eq_right h0]

/-- Claim C6: the color mapper clamps its input to `[0, 1]` before mapping
(every input produces the same color as its clamped value), and the mapper
returns the configured endpoint colors exactly: green `0x00B050` at 0 and red
`0xFF0000` at 1. -/
theorem claim_c6_color_clamp_endpoints (v : ℝ) :
    getHeatColor v = getHeatColor (max 0 (min 1 v))
    ∧ getHeatColor 0 = colorGreen ∧ getHeatColor 1 = colorRed := by
  refine ⟨?_, ?_, ?_⟩
  · simp only [getHeatColor, clamp_idem]
  · have hc : max (0 : ℝ) (min 1 0) = 0 := by norm_num
    rw [getHeatColor]
    simp only [hc]
    rw [if_pos (by norm_num : (0 : ℝ) ≤ 0.25)]
    simp [lerpColors, colorGreen]
  · have hc : max (0 : ℝ) (min 1 1) = 1 := by norm_num
    rw [getHeatColor]
    simp only [hc]
    rw [if_neg (by norm_num : ¬ (1 : ℝ) ≤ 0.25),
      if_neg (by norm_num : ¬ (1 : ℝ) ≤ 0.5),
      if_neg (by norm_num : ¬ (1 : ℝ) ≤ 0.75)]
    show lerpColors colorOrange colorRed ((1 - 0.75) / 0.25) = colorRed
    rw [lerpColors, colorOrange, colorRed]
    norm_num

/-- Claim C10: the piecewise gradient is continuous at the interior stops 0.25,
0.5 and 0.75: at each boundary the segment below, evaluated there, yields
exactly the shared control color with which the segment above starts, so
`getHeatColor` hits the control colors `0x6BFA38`, `0xFFFF00`, `0xF98607` at
those stops. -/
theorem claim_c10_gradient_continuity :
    lerpColors colorGreen colorYellowGreen ((0.25 : ℝ) / 0.25) =
      lerpColors colorYellowGreen colorYellow (((0.25 : ℝ) - 0.25) / 0.25)
    ∧ lerpColors colorYellowGreen colorYellow (((0.5 : ℝ) - 0.25) / 0.25) =
      lerpColors colorYellow colorOrange (((0.5 : ℝ) - 0.5) / 0.25)
    ∧ lerpColors colorYellow colorOrange (((0.75 : ℝ) - 0.5) / 0.25) =
      lerpColors colorOrange colorRed (((0.75 : ℝ) - 0.75) / 0.25)
    ∧ getHeatColor 0.25 = colorYellowGreen
    ∧ getHeatColor 0.5 = colorYellow
    ∧ getHeatColor 0.75 = colorOrange := by
  refine ⟨?_, ?_, ?_, ?_, ?_, ?_⟩
  · rw [lerpColors, lerpColors, colorGreen, colorYellowGreen, colorYellow]; norm_num
  · rw [lerpColors, lerpColors, colorYellowGreen, colorYellow, colorOrange]; norm_num
  · rw [lerpColors, lerpColors, colorYellow, colorOrange, colorRed]; norm_num
  · have hc : max (0 : ℝ) (min 1 0.25) = 0.25 := by norm_num
    rw [getHeatColor]
    simp only [hc]
    rw [if_pos (by norm_num : (0.25 : ℝ) ≤ 0.25)]
    rw [lerpColors, colorGreen, colorYellowGreen]
    norm_num
  · have hc : max (0 : ℝ) (min 1 0.5) = 0.5 := by norm_num
    rw [getHeatColor]
    simp only [hc]
    rw [if_neg (by norm_num : ¬ (0.5 : ℝ) ≤ 0.25),
      if_pos (by norm_num : (0.5 : ℝ) ≤ 0.5)]
    rw [lerpColors, colorYellowGreen, colorYellow]
    norm_num
  · have hc : max (0 : ℝ) (min 1 0.75) = 0.75 := by norm_num
    rw [getHeatColor]
    simp only [hc]
    rw [if_neg (by norm_num : ¬ (0.75 : ℝ) ≤ 0.25),
      if_neg (by norm_num : ¬ (0.75 : ℝ) ≤ 0.5),
      if_pos (by norm_num : (0.75 : ℝ) ≤ 0.75)]
    rw [lerpColors, colorYellow, colorOrange]
    norm_num

lemma sqrt_sixteen : Real.sqrt 16 = 4 := by
  rw [show (16 : ℝ) = 4 ^ 2 by norm_num, Real.sqrt_sq (by norm_num : (0 : ℝ) ≤ 4)]

lemma distance_four_zero : distance ⟨4, 0, 0⟩ ⟨0, 0, 0⟩ = 4 := by
  show Real.sqrt ((4 - 0) * (4 - 0) + (0 - 0) * (0 - 0) + (0 - 0) * (0 - 0)) = 4
  rw [show ((4 : ℝ) - 0) * (4 - 0) + (0 - 0) * (0 - 0) + (0 - 0) * (0 - 0) = 4 ^ 2
    by norm_num, Real.sqrt_sq (by norm_num : (0 : ℝ) ≤ 4)]

lemma influence_sixteen_at_four : influence 16 4 = 16 * Real.exp (-(1 / 4)) := by
  have hm : max (1 : ℝ) (Real.sqrt 16) = 4 := by
    rw [sqrt_sixteen]; exact max_eq_right (by norm_num)
  simp only [influence, hm]
  congr 1
  norm_num

lemma totalHeat_single_coincident (e : HeatSource) :
    totalHeat [e] e.pos = 3 * e.intensity := by
  rw [totalHeat_single, falloff, distance_self, influence_zero]

/-- Counterexample for claim C1: for the single emitter at the origin with
intensity 16, the raw aggregated value at the origin is not 16 (the code
amplifies by 3, giving 48), and the raw value at `(4, 0, 0)` is not
`16 * exp(-1/2)` (the code's exponent there is `-16/64 = -1/4`, and the result
is again tripled). -/
theorem claim_c1_counterexample :
    totalHeat [⟨⟨0, 0, 0⟩, 16⟩] ⟨0, 0, 0⟩ ≠ 16
    ∧ totalHeat [⟨⟨0, 0, 0⟩, 16⟩] ⟨4, 0, 0⟩ ≠ 16 * Real.exp (-(1 / 2)) := by
  constructor
  · rw [show (⟨0, 0, 0⟩ : Point3) = (⟨⟨0, 0, 0⟩, 16⟩ : HeatSource).pos from rfl,
      totalHeat_single_coincident]
    norm_num
  · rw [totalHeat_single, falloff]
    show 3 * influence 16 (distance ⟨4, 0, 0⟩ ⟨0, 0, 0⟩) ≠ 16 * Real.exp (-(1 / 2))
    rw [distance_four_zero, influence_sixteen_at_four]
    have h1 : Real.exp (-(1 / 2)) < Real.exp (-(1 / 4)) :=
      Real.exp_lt_exp.mpr (by norm_num)
    have h2 : 0 < Real.exp (-(1 / 2)) := Real.exp_pos _
    intro heq
    nlinarith

/-- Claim C1 as amended: the raw aggregated value carries the code's fixed
amplification factor 3.  For a single emitter whose position coincides with
the query point the raw value is `3 * intensity`; for the emitter
with position `(0,0,0)` and intensity 16 the raw value at `(0,0,0)` is `3 * 16 = 48`
and at `(4,0,0)` it is `3 * 16 * exp(-1/4)` (exponent `-d^2/(2*radius^2*2)`
with `radius = 4`). -/
theorem claim_c1_amended :
    (∀ e : HeatSource, totalHeat [e] e.pos = 3 * e.intensity)
    ∧ totalHeat [⟨⟨0, 0, 0⟩, 16⟩] ⟨0, 0, 0⟩ = 3 * 16
    ∧ totalHeat [⟨⟨0, 0, 0⟩, 16⟩] ⟨4, 0, 0⟩ = 3 * (16 * Real.exp (-(1 / 4))) := by
  refine ⟨totalHeat_single_coincident, ?_, ?_⟩
  · rw [show (⟨0, 0, 0⟩ : Point3) = (⟨⟨0, 0, 0⟩, 16⟩ : HeatSource).pos from rfl,
      totalHeat_single_coincident]
  · rw [totalHeat_single, falloff]
    show 3 * influence 16 (distance ⟨4, 0, 0⟩ ⟨0, 0, 0⟩) = 3 * (16 * Real.exp (-(1 / 4)))
    rw [distance_four_zero, influence_sixteen_at_four]

lemma maxOfList_map_div_self {xs : List ℝ} {M : ℝ} (hne : xs ≠ [])
    (hall : ∀ x ∈ xs, x ≤ M) (hM : 0 < M) (hmem : M ∈ xs) :
    maxOfList (xs.map (fun x => x / M)) = 1 := by
  apply le_antisymm
  · apply maxOfList_le
    · simpa using hne
    · intro y hy
      rcases List.mem_map.mp hy with ⟨x, hx, rfl⟩
      exact (div_le_one hM).mpr (hall x hx)
  · exact le_maxOfList (List.mem_map.mpr ⟨M, hmem, div_self hM.ne'⟩)

/-- Claim C3: over a non-empty list of non-negative raw values, the max-divide
normalizer of lines 67-71 uses the maximum raw value as its divisor and makes
the maximum normalized output exactly 1 whenever some raw value is positive
(exact equality, hence within any tolerance); when the maximum is not
positive (which for non-negative raws means it is 0) the divisor is
substituted by 1. -/
theorem claim_c3_max_divide (raws : List ℝ) (hne : raws ≠ [])
    (hnn : ∀ x ∈ raws, 0 ≤ x) :
    ((∃ x ∈ raws, 0 < x) →
      (maxDivide raws).2 = maxOfList raws ∧ maxOfList (maxDivide raws).1 = 1)
    ∧ (maxOfList raws ≤ 0 → (maxDivide raws).2 = 1) := by
  constructor
  · rintro ⟨x, hx, hxpos⟩
    have hM : 0 < maxOfList raws := lt_of_lt_of_le hxpos (le_maxOfList hx)
    have hjs : jsOr (maxOfList raws) 1 = maxOfList raws := by
      rw [jsOr, if_neg hM.ne']
    refine ⟨?_, ?_⟩
    · show jsOr (maxOfList raws) 1 = maxOfList raws
      exact hjs
    · show maxOfList (raws.map (fun x => x / jsOr (maxOfList raws) 1)) = 1
      rw [hjs]
      exact maxOfList_map_div_self hne (fun y hy => le_maxOfList hy) hM
        (maxOfList_mem hne)
  · intro hle
    have h0 : maxOfList raws = 0 :=
      le_antisymm hle (hnn _ (maxOfList_mem hne))
    show jsOr (maxOfList raws) 1 = 1
    rw [h0, jsOr, if_pos rfl]

/-- Witness for claim C3: the raw set `[2]` gets divisor 2 and maximum output
1; the raw set `[0]` (maximum not positive) gets divisor 1. -/
theorem claim_c3_witness :
    ((maxDivide [(2 : ℝ)]).2 = maxOfList [(2 : ℝ)]
      ∧ maxOfList (maxDivide [(2 : ℝ)]).1 = 1)
    ∧ (maxDivide [(0 : ℝ)]).2 = 1 :=
  ⟨(claim_c3_max_divide [2] (by simp)
      (fun x hx => by rw [List.mem_singleton.mp hx]; norm_num)).1
      ⟨2, List.mem_singleton.mpr rfl, by norm_num⟩,
   (claim_c3_max_divide [0] (by simp)
      (fun x hx => by rw [List.mem_singleton.mp hx])).2
      (by rw [maxOfList_singleton])⟩

/-- Counterexample for claim C4: with one rack and an empty emitter list the
pipeline does not yield a raw sample of value 0 for the query point — the
guard of lines 53-54 short-circuits to an empty output, so no sample at all is
produced for the rack. -/
theorem claim_c4_counterexample :
    ((racksWithHeat [⟨⟨0, 0, 0⟩, ⟨1, 1, 1⟩⟩] []).1).length ≠
      ([⟨⟨0, 0, 0⟩, ⟨1, 1, 1⟩⟩] : List RackData).length := by
  rw [racksWithHeat, if_pos (Or.inr List.length_nil)]
  simp

/-- Claim C4 as amended: with an empty emitter sequence the per-point
aggregate is 0, and the floor sampler therefore stores 0 for every grid
vertex, but the rack pipeline short-circuits to an empty output sequence
rather than emitting per-rack zero samples; with an empty query-point (rack)
sequence the output is also empty.  All functions are total, so neither case
throws or indexes out of range. -/
theorem claim_c4_amended (p : Point3) (racks : List RackData)
    (srcs : List HeatSource) (i j : ℕ) :
    totalHeat [] p = 0
    ∧ (racksWithHeat racks []).1 = []
    ∧ (racksWithHeat [] srcs).1 = []
    ∧ floorHeatValue [] (racksWithHeat racks []).2 i j = 0 := by
  refine ⟨?_, ?_, ?_, ?_⟩
  · rw [totalHeat]; simp
  · rw [racksWithHeat, if_pos (Or.inr List.length_nil)]
  · rw [racksWithHeat, if_pos (Or.inl List.length_nil)]
  · rw [floorHeatValue, totalHeat]; simp

lemma headI_mem {α : Type} [Inhabited α] {l : List α} (h : l ≠ []) :
    l.headI ∈ l := by
  cases l with
  | nil => exact absurd rfl h
  | cons a t => exact List.mem_cons_self a t

lemma racksWithHeat_snd {racks : List RackData} {srcs : List HeatSource}
    (hcond : ¬(racks.length = 0 ∨ srcs.length = 0)) :
    (racksWithHeat racks srcs).2 = maxHeatOf racks srcs := by
  rw [racksWithHeat, if_neg hcond]

lemma mem_racksWithHeat {racks : List RackData} {srcs : List HeatSource}
    {r : RackWithHeat} (hr : r ∈ (racksWithHeat racks srcs).1) :
    racks.length ≠ 0 ∧ srcs.length ≠ 0 ∧
    ∃ rack ∈ racks, r = ⟨rack.pos, rack.size, totalHeat srcs rack.pos,
      totalHeat srcs rack.pos / maxHeatOf racks srcs⟩ := by
  rw [racksWithHeat] at hr
  by_cases hcond : racks.length = 0 ∨ srcs.length = 0
  · rw [if_pos hcond] at hr
    exact absurd hr (List.not_mem_nil r)
  · rw [if_neg hcond] at hr
    push_neg at hcond
    rcases List.mem_map.mp hr with ⟨pair, hp, rfl⟩
    rw [withHeatOf] at hp
    rcases List.mem_map.mp hp with ⟨rack, hrk, rfl⟩
    exact ⟨hcond.1, hcond.2, rack, hrk, rfl⟩

lemma rackHeat_le_maxHeatOf (racks : List RackData) (srcs : List HeatSource)
    (hnn : ∀ s ∈ srcs, 0 ≤ s.intensity) {h : ℝ}
    (hmem : h ∈ (withHeatOf racks srcs).map Prod.snd) :
    h ≤ maxHeatOf racks srcs := by
  have hle : h ≤ maxOfList ((withHeatOf racks srcs).map Prod.snd) :=
    le_maxOfList hmem
  have hnnh : 0 ≤ h := by
    rcases List.mem_map.mp hmem with ⟨pair, hp, rfl⟩
    rw [withHeatOf] at hp
    rcases List.mem_map.mp hp with ⟨rack, _, rfl⟩
    exact totalHeat_nonneg hnn _
  rw [maxHeatOf]
  by_cases h0 : maxOfList ((withHeatOf racks srcs).map Prod.snd) = 0
  · rw [jsOr, if_pos h0]
    rw [h0] at hle
    linarith
  · rw [jsOr, if_neg h0]
    exact hle

lemma maxHeatOf_pos (racks : List RackData) (srcs : List HeatSource)
    (hnn : ∀ s ∈ srcs, 0 ≤ s.intensity) (hracks : racks ≠ []) :
    0 < maxHeatOf racks srcs := by
  have hLne : (withHeatOf racks srcs).map Prod.snd ≠ [] := by
    simp [withHeatOf, hracks]
  have hnnL : ∀ x ∈ (withHeatOf racks srcs).map Prod.snd, 0 ≤ x := by
    intro x hx
    rcases List.mem_map.mp hx with ⟨pair, hp, rfl⟩
    rw [withHeatOf] at hp
    rcases List.mem_map.mp hp with ⟨rack, _, rfl⟩
    exact totalHeat_nonneg hnn _
  rw [maxHeatOf]
  by_cases h0 : maxOfList ((withHeatOf racks srcs).map Prod.snd) = 0
  · rw [jsOr, if_pos h0]; norm_num
  · rw [jsOr, if_neg h0]
    exact lt_of_le_of_ne (hnnL _ (maxOfList_mem hLne)) (Ne.symm h0)

/-- Counterexample for claim C2: the floor-grid normalized values are divided
by the rack maximum, not the grid maximum, so a grid vertex closer to an
emitter than every rack gets a value above 1.  With the single emitter at
`(20, 0, 0)` of intensity 1 and a single rack at the origin, the floor vertex
`(i, j) = (25, 45)` (world position `(20, 0, 0)`) gets the value
`exp 100 > 1`. -/
theorem claim_c2_counterexample :
    1 < floorHeatValue [⟨⟨20, 0, 0⟩, 1⟩]
      (racksWithHeat [⟨⟨0, 0, 0⟩, ⟨1, 1, 1⟩⟩] [⟨⟨20, 0, 0⟩, 1⟩]).2 25 45 := by
  have hd20 : distance ⟨0, 0, 0⟩ ⟨20, 0, 0⟩ = 20 := by
    show Real.sqrt ((0 - 20) * (0 - 20) + (0 - 0) * (0 - 0) + (0 - 0) * (0 - 0)) = 20
    rw [show ((0 : ℝ) - 20) * (0 - 20) + (0 - 0) * (0 - 0) + (0 - 0) * (0 - 0) = 20 ^ 2
      by norm_num, Real.sqrt_sq (by norm_num : (0 : ℝ) ≤ 20)]
  have hinf : influence 1 20 = Real.exp (-100) := by
    have hm : max (1 : ℝ) (Real.sqrt 1) = 1 := by
      rw [Real.sqrt_one]; exact max_self 1
    simp only [influence, hm]
    rw [one_mul]
    congr 1
    norm_num
  have hrack : totalHeat [⟨⟨20, 0, 0⟩, 1⟩] ⟨0, 0, 0⟩ = 3 * Real.exp (-100) := by
    rw [totalHeat_single, falloff]
    show 3 * influence 1 (distance ⟨0, 0, 0⟩ ⟨20, 0, 0⟩) = 3 * Real.exp (-100)
    rw [hd20, hinf]
  have hsnd : (racksWithHeat [⟨⟨0, 0, 0⟩, ⟨1, 1, 1⟩⟩] [⟨⟨20, 0, 0⟩, 1⟩]).2 =
      3 * Real.exp (-100) := by
    rw [racksWithHeat_snd (by norm_num), maxHeatOf, withHeatOf]
    simp only [List.map_cons, List.map_nil]
    show jsOr (maxOfList [totalHeat [⟨⟨20, 0, 0⟩, 1⟩] ⟨0, 0, 0⟩]) 1 = 3 * Real.exp (-100)
    rw [maxOfList_singleton, hrack, jsOr, if_neg (by positivity)]
  have hgrid : gridPos 25 45 = ⟨20, 0, 0⟩ := by
    rw [gridPos]
    norm_num
  have hfloor : totalHeat [⟨⟨20, 0, 0⟩, 1⟩] (gridPos 25 45) = 3 := by
    rw [hgrid, totalHeat_single, falloff, distance_self, influence_zero]
    norm_num
  rw [floorHeatValue, hfloor, hsnd]
  rw [one_lt_div (by positivity)]
  have : Real.exp (-100) < 1 := by
    rw [show (1 : ℝ) = Real.exp 0 from (Real.exp_zero).symm]
    exact Real.exp_lt_exp.mpr (by norm_num)
  nlinarith

/-- Claim C2 as amended: whenever every emitter has non-negative intensity,
every rack-center normalized value lies in `[0, 1]`, and every floor-grid
value is non-negative; but the floor-grid values are only divided by the rack
maximum and are not bounded by 1 (see the counterexample). -/
theorem claim_c2_amended (racks : List RackData) (srcs : List HeatSource)
    (hnn : ∀ s ∈ srcs, 0 ≤ s.intensity) (r : RackWithHeat)
    (hr : r ∈ (racksWithHeat racks srcs).1) (i j : ℕ) :
    (0 ≤ r.normalizedHeat ∧ r.normalizedHeat ≤ 1)
    ∧ 0 ≤ floorHeatValue srcs (racksWithHeat racks srcs).2 i j := by
  obtain ⟨hrl, hsl, rack, hrk, hreq⟩ := mem_racksWithHeat hr
  subst hreq
  have hracksne : racks ≠ [] := fun h => hrl (by rw [h]; rfl)
  have hM : 0 < maxHeatOf racks srcs := maxHeatOf_pos _ _ hnn hracksne
  have hh : 0 ≤ totalHeat srcs rack.pos := totalHeat_nonneg hnn _
  have hle : totalHeat srcs rack.pos ≤ maxHeatOf racks srcs := by
    apply rackHeat_le_maxHeatOf _ _ hnn
    rw [withHeatOf, List.map_map]
    exact List.mem_map.mpr ⟨rack, hrk, rfl⟩
  refine ⟨⟨div_nonneg hh hM.le, (div_le_one hM).mpr hle⟩, ?_⟩
  rw [racksWithHeat_snd (not_or.mpr ⟨hrl, hsl⟩), floorHeatValue]
  exact div_nonneg (totalHeat_nonneg hnn _) hM.le

/-- Witness for the amended claim C2: one rack at the origin and one emitter
of intensity 1 at the origin; the first output rack's normalized value is in
`[0, 1]` and the floor value at grid vertex `(0, 0)` is non-negative. -/
theorem claim_c2_witness :
    (0 ≤ ((racksWithHeat [⟨⟨0, 0, 0⟩, ⟨1, 1, 1⟩⟩]
        [⟨⟨0, 0, 0⟩, 1⟩]).1.headI).normalizedHeat
      ∧ ((racksWithHeat [⟨⟨0, 0, 0⟩, ⟨1, 1, 1⟩⟩]
        [⟨⟨0, 0, 0⟩, 1⟩]).1.headI).normalizedHeat ≤ 1)
    ∧ 0 ≤ floorHeatValue [⟨⟨0, 0, 0⟩, 1⟩]
        (racksWithHeat [⟨⟨0, 0, 0⟩, ⟨1, 1, 1⟩⟩] [⟨⟨0, 0, 0⟩, 1⟩]).2 0 0 :=
  claim_c2_amended _ _
    (fun s hs => by rw [List.mem_singleton.mp hs]; norm_num) _
    (headI_mem (by rw [racksWithHeat, if_neg (by norm_num)]; simp [withHeatOf]))
    0 0

/-- Claim C9: when the emitter list is non-empty and every emitter has
positive intensity, every output rack's raw heat is strictly positive, its
normalized heat is strictly positive and at most 1, and the hottest rack's
normalized heat (the maximum over the output) is exactly 1. -/
theorem claim_c9_positive_heat (racks : List RackData) (srcs : List HeatSource)
    (hs : srcs ≠ []) (hpos : ∀ s ∈ srcs, 0 < s.intensity)
    (r : RackWithHeat) (hr : r ∈ (racksWithHeat racks srcs).1) :
    (0 < r.heat ∧ 0 < r.normalizedHeat ∧ r.normalizedHeat ≤ 1)
    ∧ maxOfList ((racksWithHeat racks srcs).1.map RackWithHeat.normalizedHeat) = 1 := by
  obtain ⟨hrl, hsl, rack, hrk, hreq⟩ := mem_racksWithHeat hr
  subst hreq
  have hracksne : racks ≠ [] := fun h => hrl (by rw [h]; rfl)
  have hnn : ∀ s ∈ srcs, 0 ≤ s.intensity := fun s hmem => (hpos s hmem).le
  have hM : 0 < maxHeatOf racks srcs := maxHeatOf_pos _ _ hnn hracksne
  have hh : 0 < totalHeat srcs rack.pos := totalHeat_pos hs hpos _
  have hle : totalHeat srcs rack.pos ≤ maxHeatOf racks srcs := by
    apply rackHeat_le_maxHeatOf _ _ hnn
    rw [withHeatOf, List.map_map]
    exact List.mem_map.mpr ⟨rack, hrk, rfl⟩
  refine ⟨⟨hh, div_pos hh hM, (div_le_one hM).mpr hle⟩, ?_⟩
  have hxsne : (withHeatOf racks srcs).map Prod.snd ≠ [] := by
    simp [withHeatOf, hracksne]
  have hallpos : ∀ x ∈ (withHeatOf racks srcs).map Prod.snd, 0 < x := by
    intro x hx
    rcases List.mem_map.mp hx with ⟨pair, hp, rfl⟩
    rw [withHeatOf] at hp
    rcases List.mem_map.mp hp with ⟨rack2, _, rfl⟩
    exact totalHeat_pos hs hpos _
  have hmxpos : 0 < maxOfList ((withHeatOf racks srcs).map Prod.snd) :=
    hallpos _ (maxOfList_mem hxsne)
  have hMeq : maxHeatOf racks srcs = maxOfList ((withHeatOf racks srcs).map Prod.snd) := by
    rw [maxHeatOf, jsOr, if_neg hmxpos.ne']
  have hMmem : maxHeatOf racks srcs ∈ (withHeatOf racks srcs).map Prod.snd := by
    rw [hMeq]; exact maxOfList_mem hxsne
  rw [racksWithHeat, if_neg (not_or.mpr ⟨hrl, hsl⟩)]
  simp only [List.map_map]
  have hlist : (withHeatOf racks srcs).map
      (RackWithHeat.normalizedHeat ∘ fun rh =>
        (⟨rh.1.pos, rh.1.size, rh.2, rh.2 / maxHeatOf racks srcs⟩ : RackWithHeat)) =
      ((withHeatOf racks srcs).map Prod.snd).map
        (fun x => x / maxHeatOf racks srcs) := by
    rw [List.map_map]
    rfl
  rw [hlist]
  exact maxOfList_map_div_self hxsne
    (fun x hx => rackHeat_le_maxHeatOf _ _ hnn hx) hM hMmem

/-- Witness for claim C9: one rack at the origin and one emitter of intensity
1 at the origin; the first output rack has positive raw heat, positive
normalized heat at most 1, and the maximum normalized heat is exactly 1. -/
theorem claim_c9_witness :
    (0 < ((racksWithHeat [⟨⟨0, 0, 0⟩, ⟨1, 1, 1⟩⟩]
        [⟨⟨0, 0, 0⟩, 1⟩]).1.headI).heat
      ∧ 0 < ((racksWithHeat [⟨⟨0, 0, 0⟩, ⟨1, 1, 1⟩⟩]
        [⟨⟨0, 0, 0⟩, 1⟩]).1.headI).normalizedHeat
      ∧ ((racksWithHeat [⟨⟨0, 0, 0⟩, ⟨1, 1, 1⟩⟩]
        [⟨⟨0, 0, 0⟩, 1⟩]).1.headI).normalizedHeat ≤ 1)
    ∧ maxOfList ((racksWithHeat [⟨⟨0, 0, 0⟩, ⟨1, 1, 1⟩⟩]
        [⟨⟨0, 0, 0⟩, 1⟩]).1.map RackWithHeat.normalizedHeat) = 1 :=
  claim_c9_positive_heat _ _ (by simp)
    (fun s hs => by rw [List.mem_singleton.mp hs]; norm_num) _
    (headI_mem (by rw [racksWithHeat, if_neg (by norm_num)]; simp [withHeatOf]))
